import Mathlib

/-!
# Verification of `scrape_dubai.py`

A shallow embedding of the incremental Dubai Airbnb scraper
(`src/scrape_dubai.py`) together with proofs and refutations of the
specification's claims about it.

Modelling conventions:
* Python values flowing through heterogeneous payloads (search results,
  listing details, host details) are modelled by the inductive type `Val`
  (strings, integers, booleans, `None`, dicts as association lists with
  distinct keys, lists).
* Network calls (`pyairbnb.search_all`, `get_details`, `get_host_details`,
  `get_listings_from_user`), and the wall clock, are modelled as oracle
  functions passed explicitly; a `none` result of an oracle stands for the
  call raising an exception (after its retry wrapper is exhausted).
* Files are modelled by their contents: the processed-ids text file as a
  `List Char`, the CSV file as the list of records it holds.
* Floating point coordinates are modelled as exact rationals `ℚ`.
* `print` calls and `time.sleep` pauses, which do not affect the data flow,
  are not modelled (the back-off schedule of the retry decorator is
  recorded explicitly as data).
-/

/-- Python-like dynamic values appearing in scraped payloads. -/
inductive Val : Type where
  | null : Val
  | bool (b : Bool) : Val
  | num (n : ℤ) : Val
  | str (s : String) : Val
  | dict (fields : List (String × Val)) : Val
  | list (items : List Val) : Val

/-- Python truthiness (`if value:`): `None`, `False`, `0`, `""`, `{}`, `[]`
are falsy, everything else truthy. -/
def pyTruthy : Val → Bool
  | Val.null => false
  | Val.bool b => b
  | Val.num n => n != 0
  | Val.str s => s != ""
  | Val.dict fs => !fs.isEmpty
  | Val.list xs => !xs.isEmpty

/-- Truthiness of a possibly-absent value (Python `None` for a missing key). -/
def pyTruthyO : Option Val → Bool
  | some v => pyTruthy v
  | none => false

/-- `d.get(k)` on a dict: the stored value, or `None` when absent.  Python
dicts have distinct keys, so first-match lookup on the association list is
faithful. -/
def vGet (fs : List (String × Val)) (k : String) : Option Val :=
  (fs.find? (fun kv => kv.1 = k)).map (fun kv => kv.2)

/-- `str(value)` for the value shapes that reach a `str()` call in the
scraper (identifiers are numbers or strings upstream).  The `repr` of
containers is not modelled; no theorem depends on those cases. -/
def pyStr : Val → String
  | Val.null => "None"
  | Val.bool b => if b then "True" else "False"
  | Val.num n => toString n
  | Val.str s => s
  | Val.dict _ => "<dict>"
  | Val.list _ => "<list>"

/-!
## The retry decorator (`retry_on_failure`, lines 43–60)

The wrapped operation is modelled as `f : ℕ → Except E A` giving the
outcome of its `i`-th invocation (0-based, matching Python's `attempt`
variable).  The trace records the final outcome, how many times the
operation was invoked, and the sequence of back-off sleeps (in the time
unit of `delay`).
-/

/-- Final outcome of the retry wrapper: the wrapped function's value, a
re-raised last exception, or Python's implicit `return None` after a loop
over `range(0)`. -/
inductive RetryOutcome (E A : Type) : Type where
  | success (a : A) : RetryOutcome E A
  | raised (e : E) : RetryOutcome E A
  | noneResult : RetryOutcome E A
deriving DecidableEq, Repr

/-- Trace of one run of the retry wrapper. -/
structure RetryTrace (E A : Type) : Type where
  outcome : RetryOutcome E A
  calls : ℕ
  sleeps : List ℕ
deriving DecidableEq, Repr

/-- The loop of `retry_on_failure`: `i` is the current value of Python's
`attempt`, `rem` the number of loop iterations left.  On failure of the
last attempt the exception is re-raised; otherwise the wrapper sleeps
`delay * 2 ** attempt` and retries. -/
def retryAux (f : ℕ → Except E A) (delay : ℕ) : ℕ → ℕ → RetryTrace E A
  | _, 0 => ⟨RetryOutcome.noneResult, 0, []⟩
  | i, rem + 1 =>
    match f i with
    | Except.ok a => ⟨RetryOutcome.success a, 1, []⟩
    | Except.error e =>
      if rem = 0 then ⟨RetryOutcome.raised e, 1, []⟩
      else
        let t := retryAux f delay (i + 1) rem
        ⟨t.outcome, t.calls + 1, delay * 2 ^ i :: t.sleeps⟩

/-- `retry_on_failure(max_retries, delay)` applied to an operation `f`
(the scraper uses `max_retries=3` with `delay=2` or `delay=1`). -/
def retry_on_failure (f : ℕ → Except E A) (max_retries delay : ℕ) : RetryTrace E A :=
  retryAux f delay 0 max_retries

theorem retryAux_calls_le (f : ℕ → Except E A) (delay : ℕ) :
    ∀ rem i, (retryAux f delay i rem).calls ≤ rem := by
  intro rem
  induction rem with
  | zero => intro i; simp [retryAux]
  | succ n ih =>
    intro i
    simp only [retryAux]
    cases f i with
    | ok a => simp
    | error e =>
      by_cases h : n = 0
      · simp [h]
      · simp only [if_neg h]
        exact Nat.succ_le_succ (ih (i + 1))

theorem retryAux_calls_pos (f : ℕ → Except E A) (delay : ℕ) :
    ∀ rem i, 0 < rem → 0 < (retryAux f delay i rem).calls := by
  intro rem i h
  match rem, h with
  | n + 1, _ =>
    simp only [retryAux]
    cases f i with
    | ok a => simp
    | error e =>
      by_cases h0 : n = 0
      · simp [h0]
      · simp only [if_neg h0]
        exact Nat.succ_pos _

theorem retryAux_sleeps (f : ℕ → Except E A) (delay : ℕ) :
    ∀ rem i, (retryAux f delay i rem).sleeps =
      (List.range' i ((retryAux f delay i rem).calls - 1)).map (fun j => delay * 2 ^ j) := by
  intro rem
  induction rem with
  | zero => intro i; simp [retryAux]
  | succ n ih =>
    intro i
    simp only [retryAux]
    cases f i with
    | ok a => simp
    | error e =>
      by_cases h0 : n = 0
      · simp [h0]
      · simp only [if_neg h0]
        have hpos : 0 < (retryAux f delay (i + 1) n).calls :=
          retryAux_calls_pos f delay n (i + 1) (Nat.pos_of_ne_zero h0)
        have hrange : (retryAux f delay (i + 1) n).calls + 1 - 1 =
            ((retryAux f delay (i + 1) n).calls - 1) + 1 := by omega
        rw [ih (i + 1)]
        simp only [hrange, List.range'_succ, List.map_cons]

/-- C4: the retry wrapper invokes the operation at most `max_retries`
times; before each retry it sleeps `delay * 2 ^ (attempt - 1)` (1-based
attempt numbering, i.e. the recorded schedule is `delay * 2 ^ 0, delay *
2 ^ 1, …`); an operation failing twice then succeeding under
`max_retries = 3` yields the success value after exactly 3 invocations;
an operation failing on every attempt yields the last error after exactly
`max_retries` invocations and no further calls. -/
theorem retry_on_failure_spec {E A : Type} (d : ℕ) :
    (∀ (f : ℕ → Except E A) (m : ℕ), (retry_on_failure f m d).calls ≤ m) ∧
    (∀ (f : ℕ → Except E A) (m : ℕ),
      (retry_on_failure f m d).sleeps =
        (List.range ((retry_on_failure f m d).calls - 1)).map (fun j => d * 2 ^ j)) ∧
    (∀ (f : ℕ → Except E A) (e0 e1 : E) (a : A),
      f 0 = Except.error e0 → f 1 = Except.error e1 → f 2 = Except.ok a →
      retry_on_failure f 3 d = ⟨RetryOutcome.success a, 3, [d * 2 ^ 0, d * 2 ^ 1]⟩) ∧
    (∀ (f : ℕ → Except E A) (e0 e1 e2 : E),
      f 0 = Except.error e0 → f 1 = Except.error e1 → f 2 = Except.error e2 →
      retry_on_failure f 3 d = ⟨RetryOutcome.raised e2, 3, [d * 2 ^ 0, d * 2 ^ 1]⟩) := by
  refine ⟨fun f m => retryAux_calls_le f d m 0, fun f m => ?_, fun f e0 e1 a h0 h1 h2 => ?_,
    fun f e0 e1 e2 h0 h1 h2 => ?_⟩
  · have h := retryAux_sleeps f d m 0
    simpa [retry_on_failure, List.range_eq_range'] using h
  · simp [retry_on_failure, retryAux, h0, h1, h2]
  · simp [retry_on_failure, retryAux, h0, h1, h2]

/-- Witness for C4: a concrete operation failing on attempts 0 and 1 and
succeeding on attempt 2 under `max_retries = 3`, `delay = 2`. -/
theorem retry_on_failure_spec_witness :
    retry_on_failure (fun i => if i < 2 then Except.error "boom" else Except.ok 42) 3 2 =
      ⟨RetryOutcome.success 42, 3, [2, 4]⟩ :=
  (retry_on_failure_spec 2).2.2.1
    (fun i => if i < 2 then Except.error "boom" else Except.ok 42) "boom" "boom" 42
    rfl rfl rfl

/-!
## Area partitioning (`build_dubai_city_subzones`, lines 63–96)

The Python function hardcodes the Dubai bounding box and takes `rows` and
`cols` parameters (called with `rows=4, cols=5`).  `buildSubzones` is the
same arithmetic with the bounding box as parameters; the source function is
`build_dubai_city_subzones` below, an instance at the hardcoded bounds.
There is no `overlap` parameter anywhere in the source (cells abut
exactly), and no input validation: `rows = 0` or `cols = 0` raises
`ZeroDivisionError` when the steps are computed (modelled as `none`), while
negative values make `range()` empty, so the function silently returns an
empty list.  Coordinates are exact rationals.
-/

/-- One sub-zone as built by the source: a named cell with NE/SW corners. -/
structure Zone : Type where
  name : String
  ne_lat : ℚ
  ne_long : ℚ
  sw_lat : ℚ
  sw_long : ℚ
deriving DecidableEq, Repr

/-- The grid arithmetic of `build_dubai_city_subzones`, with the bounding
box generalised to parameters (the source fixes it to the Dubai constants
below).  Row-major: `r` is the outer loop, `c` the inner. -/
def buildSubzones (north south east west : ℚ) (rows cols : ℕ) : List Zone :=
  let lat_step := (north - south) / rows
  let lng_step := (east - west) / cols
  (List.range rows).flatMap (fun (r : ℕ) =>
    (List.range cols).map (fun (c : ℕ) =>
      let z_sw_lat := south + (r : ℚ) * lat_step
      let z_sw_lng := west + (c : ℚ) * lng_step
      { name := "dubai_" ++ toString (r + 1) ++ "_" ++ toString (c + 1),
        ne_lat := z_sw_lat + lat_step,
        ne_long := z_sw_lng + lng_step,
        sw_lat := z_sw_lat,
        sw_long := z_sw_lng }))

/-- `north = 25.3463` (line 69). -/
def dubai_north : ℚ := 253463 / 10000
/-- `south = 24.7743` (line 70). -/
def dubai_south : ℚ := 247743 / 10000
/-- `east = 55.5224` (line 71). -/
def dubai_east : ℚ := 555224 / 10000
/-- `west = 54.9493` (line 72). -/
def dubai_west : ℚ := 549493 / 10000

/-- `build_dubai_city_subzones(rows, cols)`.  The result is `none` exactly
when the step computation divides by zero (`ZeroDivisionError`); negative
arguments give empty `range`s, hence an empty zone list, with no error. -/
def build_dubai_city_subzones (rows cols : ℤ) : Option (List Zone) :=
  if rows = 0 ∨ cols = 0 then none
  else some (buildSubzones dubai_north dubai_south dubai_east dubai_west rows.toNat cols.toNat)

/-- Characterisation of membership in the generated grid. -/
theorem mem_buildSubzones {north south east west : ℚ} {rows cols : ℕ} {z : Zone} :
    z ∈ buildSubzones north south east west rows cols ↔
      ∃ r : ℕ, r < rows ∧ ∃ c : ℕ, c < cols ∧
        z = { name := "dubai_" ++ toString (r + 1) ++ "_" ++ toString (c + 1),
              ne_lat := south + (r : ℚ) * ((north - south) / rows) + (north - south) / rows,
              ne_long := west + (c : ℚ) * ((east - west) / cols) + (east - west) / cols,
              sw_lat := south + (r : ℚ) * ((north - south) / rows),
              sw_long := west + (c : ℚ) * ((east - west) / cols) } := by
  constructor
  · intro h
    rw [buildSubzones, List.mem_flatMap] at h
    obtain ⟨r, hr, hz⟩ := h
    rw [List.mem_map] at hz
    obtain ⟨c, hc, rfl⟩ := hz
    exact ⟨r, List.mem_range.mp hr, c, List.mem_range.mp hc, rfl⟩
  · rintro ⟨r, hr, c, hc, rfl⟩
    rw [buildSubzones, List.mem_flatMap]
    exact ⟨r, List.mem_range.mpr hr, List.mem_map.mpr ⟨c, List.mem_range.mpr hc, rfl⟩⟩

/-- One-dimensional covering of `[a, a + (n+1)·step]` by the `n+1`
consecutive intervals `[a + r·step, a + (r+1)·step]`. -/
theorem cover1D (step : ℚ) :
    ∀ (n : ℕ) (a x : ℚ), a ≤ x → x ≤ a + (n + 1 : ℕ) * step →
      ∃ r ≤ n, a + r * step ≤ x ∧ x ≤ a + (r + 1 : ℕ) * step := by
  intro n
  induction n with
  | zero =>
    intro a x hax hx
    exact ⟨0, le_refl 0, by simpa using hax, by simpa using hx⟩
  | succ m ih =>
    intro a x hax hx
    by_cases hcase : x ≤ a + (m + 1 : ℕ) * step
    · obtain ⟨r, hr, h1, h2⟩ := ih a x hax hcase
      exact ⟨r, Nat.le_succ_of_le hr, h1, h2⟩
    · push_neg at hcase
      refine ⟨m + 1, le_refl _, le_of_lt hcase, ?_⟩
      simpa using hx

theorem grid_step_pos {a b : ℚ} {n : ℕ} (hab : a < b) (hn : 0 < n) :
    0 < (b - a) / n :=
  div_pos (sub_pos.mpr hab) (by exact_mod_cast hn)

theorem grid_steps_total {a b : ℚ} {n : ℕ} (hn : 0 < n) :
    a + n * ((b - a) / n) = b := by
  have hnQ : (n : ℚ) ≠ 0 := Nat.cast_ne_zero.mpr hn.ne'
  field_simp

theorem grid_cell_bounds {a b : ℚ} {n : ℕ} (hab : a < b) (hn : 0 < n)
    {r : ℕ} (hr : r < n) :
    a ≤ a + r * ((b - a) / n) ∧
    a + r * ((b - a) / n) < a + r * ((b - a) / n) + (b - a) / n ∧
    a + r * ((b - a) / n) + (b - a) / n ≤ b := by
  have hs : 0 < (b - a) / n := grid_step_pos hab hn
  refine ⟨le_add_of_nonneg_right (mul_nonneg (Nat.cast_nonneg r) hs.le), lt_add_of_pos_right _ hs, ?_⟩
  have h1 : ((r : ℚ) + 1) ≤ n := by exact_mod_cast hr
  calc a + r * ((b - a) / n) + (b - a) / n
      = a + ((r : ℚ) + 1) * ((b - a) / n) := by ring
    _ ≤ a + n * ((b - a) / n) := by
        exact add_le_add_left (mul_le_mul_of_nonneg_right h1 hs.le) a
    _ = b := grid_steps_total hn

/-- C3: for every area with `south < north` and `west < east` and every
positive `rows` and `cols`, the partition returns exactly `rows * cols`
cells, each nondegenerate and fully contained within the original bounds,
and the cells cover the whole area with no gaps (every point of the area
lies in some cell).  The source has no overlap parameter: its cells abut
exactly (overlap `0`, which satisfies `overlap ≥ 0`). -/
theorem partition_spec (north south east west : ℚ) (rows cols : ℕ)
    (hlat : south < north) (hlng : west < east) (hr : 0 < rows) (hc : 0 < cols) :
    (buildSubzones north south east west rows cols).length = rows * cols ∧
    (∀ z ∈ buildSubzones north south east west rows cols,
      south ≤ z.sw_lat ∧ z.sw_lat < z.ne_lat ∧ z.ne_lat ≤ north ∧
      west ≤ z.sw_long ∧ z.sw_long < z.ne_long ∧ z.ne_long ≤ east) ∧
    (∀ lat lng : ℚ, south ≤ lat → lat ≤ north → west ≤ lng → lng ≤ east →
      ∃ z ∈ buildSubzones north south east west rows cols,
        z.sw_lat ≤ lat ∧ lat ≤ z.ne_lat ∧ z.sw_long ≤ lng ∧ lng ≤ z.ne_long) := by
  refine ⟨?_, ?_, ?_⟩
  · simp [buildSubzones, List.length_flatMap, Function.comp_def]
  · intro z hz
    obtain ⟨r, hrlt, c, hclt, rfl⟩ := mem_buildSubzones.mp hz
    obtain ⟨la1, la2, la3⟩ := grid_cell_bounds hlat hr hrlt
    obtain ⟨lo1, lo2, lo3⟩ := grid_cell_bounds hlng hc hclt
    exact ⟨la1, la2, la3, lo1, lo2, lo3⟩
  · intro lat lng h1 h2 h3 h4
    obtain ⟨nr, rfl⟩ : ∃ nr, rows = nr + 1 := ⟨rows - 1, (Nat.succ_pred_eq_of_pos hr).symm⟩
    obtain ⟨nc, rfl⟩ : ∃ nc, cols = nc + 1 := ⟨cols - 1, (Nat.succ_pred_eq_of_pos hc).symm⟩
    have hlat2 : lat ≤ south + ((nr + 1 : ℕ) : ℚ) * ((north - south) / ((nr + 1 : ℕ) : ℚ)) := by
      rw [grid_steps_total hr]; exact h2
    have hlng2 : lng ≤ west + ((nc + 1 : ℕ) : ℚ) * ((east - west) / ((nc + 1 : ℕ) : ℚ)) := by
      rw [grid_steps_total hc]; exact h4
    obtain ⟨r, hrle, hra, hrb⟩ := cover1D ((north - south) / ((nr + 1 : ℕ) : ℚ)) nr south lat h1 hlat2
    obtain ⟨c, hcle, hca, hcb⟩ := cover1D ((east - west) / ((nc + 1 : ℕ) : ℚ)) nc west lng h3 hlng2
    refine ⟨_, mem_buildSubzones.mpr ⟨r, Nat.lt_succ_of_le hrle, c, Nat.lt_succ_of_le hcle, rfl⟩,
      hra, ?_, hca, ?_⟩
    · have := hrb
      push_cast at this ⊢
      linarith [this]
    · have := hcb
      push_cast at this ⊢
      linarith [this]

/-- Witness for C3: the source's own call `build_dubai_city_subzones(rows=4,
cols=5)` produces exactly `4 * 5 = 20` zones at the hardcoded Dubai bounds. -/
theorem partition_spec_witness :
    dubai_south < dubai_north ∧ dubai_west < dubai_east ∧
    (buildSubzones dubai_north dubai_south dubai_east dubai_west 4 5).length = 4 * 5 :=
  ⟨by norm_num [dubai_south, dubai_north], by norm_num [dubai_west, dubai_east],
    (partition_spec dubai_north dubai_south dubai_east dubai_west 4 5
      (by norm_num [dubai_south, dubai_north]) (by norm_num [dubai_west, dubai_east])
      (by norm_num) (by norm_num)).1⟩

/-- Counterexample to C8: `rows = -1` is invalid input (`rows ≤ 0`), yet the
partition does not fail and is not reported as a configuration error:
`range(-1)` is empty, so `build_dubai_city_subzones(-1, 5)` silently
returns an empty zone list. -/
theorem partition_invalid_input_succeeds :
    (-1 : ℤ) ≤ 0 ∧ build_dubai_city_subzones (-1) 5 = some [] := by
  constructor
  · norm_num
  · rfl

theorem buildSubzones_rows_zero (north south east west : ℚ) (cols : ℕ) :
    buildSubzones north south east west 0 cols = [] := rfl

theorem buildSubzones_cols_zero (north south east west : ℚ) (rows : ℕ) :
    buildSubzones north south east west rows 0 = [] := by
  simp [buildSubzones]

/-- C8 amended: `build_dubai_city_subzones` fails exactly on `rows = 0` or
`cols = 0` (an unhandled `ZeroDivisionError` computing the steps, fatal to
the run); it performs no other input validation: negative `rows`/`cols`
silently yield an empty partition (no error), and for positive inputs it
succeeds with the full `rows × cols` grid.  The source has no `overlap`
parameter and its area is hardcoded (and valid), so the spec's
degenerate-area and negative-overlap failure cases have no code to decide
them. -/
theorem partition_failure_spec :
    (∀ rows cols : ℤ, build_dubai_city_subzones rows cols = none ↔ (rows = 0 ∨ cols = 0)) ∧
    (∀ rows cols : ℤ, rows ≠ 0 → cols ≠ 0 → (rows < 0 ∨ cols < 0) →
      build_dubai_city_subzones rows cols = some []) ∧
    (∀ rows cols : ℤ, 0 < rows → 0 < cols →
      build_dubai_city_subzones rows cols =
        some (buildSubzones dubai_north dubai_south dubai_east dubai_west rows.toNat cols.toNat) ∧
      (buildSubzones dubai_north dubai_south dubai_east dubai_west
        rows.toNat cols.toNat).length = rows.toNat * cols.toNat) := by
  refine ⟨fun rows cols => ?_, fun rows cols hrne hcne hneg => ?_, fun rows cols hrp hcp => ?_⟩
  · unfold build_dubai_city_subzones
    by_cases h : rows = 0 ∨ cols = 0
    · simp [h]
    · simp [h]
  · unfold build_dubai_city_subzones
    rw [if_neg (by tauto)]
    rcases hneg with h | h
    · have : rows.toNat = 0 := Int.toNat_of_nonpos h.le
      rw [this, buildSubzones_rows_zero]
    · have : cols.toNat = 0 := Int.toNat_of_nonpos h.le
      rw [this, buildSubzones_cols_zero]
  · constructor
    · unfold build_dubai_city_subzones
      rw [if_neg (by push_neg; exact ⟨hrp.ne', hcp.ne'⟩)]
    · exact (partition_spec dubai_north dubai_south dubai_east dubai_west rows.toNat cols.toNat
        (by norm_num [dubai_south, dubai_north]) (by norm_num [dubai_west, dubai_east])
        (by omega) (by omega)).1

/-- Witness for C8 (amended): concrete instances — `rows = 0` raises
(`none`), `rows = -2` silently succeeds empty, `rows = 4, cols = 5`
succeeds with 20 zones. -/
theorem partition_failure_spec_witness :
    build_dubai_city_subzones 0 5 = none ∧
    build_dubai_city_subzones (-2) 3 = some [] ∧
    (buildSubzones dubai_north dubai_south dubai_east dubai_west
      (4 : ℤ).toNat (5 : ℤ).toNat).length = (4 : ℤ).toNat * (5 : ℤ).toNat :=
  ⟨partition_failure_spec.1 0 5 |>.mpr (Or.inl rfl),
    partition_failure_spec.2.1 (-2) 3 (by norm_num) (by norm_num) (Or.inl (by norm_num)),
    (partition_failure_spec.2.2 4 5 (by norm_num) (by norm_num)).2⟩

/-!
## Work-list construction (`scrape_dubai_incremental`, lines 467–492, and
`load_processed_ids`, lines 129–136)

`remaining_ids = [rid for rid in all_room_ids if rid not in processed_ids]`
followed by `to_process = remaining_ids[:LISTINGS_PER_RUN]`.
-/

/-- `LISTINGS_PER_RUN = 200` (line 14). -/
def LISTINGS_PER_RUN : ℕ := 200

/-- Line 478: filter out ids already in the checkpoint set. -/
def remaining_ids (all_room_ids : List String) (processed_ids : Finset String) : List String :=
  all_room_ids.filter (fun rid => rid ∉ processed_ids)

/-- Line 492: truncate to the per-run cap. -/
def to_process (all_room_ids : List String) (processed_ids : Finset String) : List String :=
  (remaining_ids all_room_ids processed_ids).take LISTINGS_PER_RUN

/-- C2: the run's work list is the discovered list minus the checkpoint
set, truncated to at most `LISTINGS_PER_RUN` elements: it never exceeds the
cap, contains only discovered ids that are not checkpointed, excludes every
checkpointed id even if discovery re-finds it, and when the remainder fits
under the cap it is processed in full. -/
theorem work_list_spec (all_room_ids : List String) (processed_ids : Finset String) :
    (to_process all_room_ids processed_ids).length ≤ LISTINGS_PER_RUN ∧
    (∀ x ∈ to_process all_room_ids processed_ids, x ∈ all_room_ids ∧ x ∉ processed_ids) ∧
    (∀ x ∈ processed_ids, x ∉ to_process all_room_ids processed_ids) ∧
    ((remaining_ids all_room_ids processed_ids).length ≤ LISTINGS_PER_RUN →
      to_process all_room_ids processed_ids = remaining_ids all_room_ids processed_ids) := by
  refine ⟨?_, fun x hx => ?_, fun x hx hmem => ?_, fun hlen => ?_⟩
  · exact (List.length_take _ _).le.trans (min_le_left _ _)
  · have hx2 := List.mem_of_mem_take hx
    have := List.of_mem_filter hx2
    exact ⟨List.mem_of_mem_filter hx2, by simpa using this⟩
  · have hx2 := List.mem_of_mem_take hmem
    have := List.of_mem_filter hx2
    simp at this
    exact this hx
  · exact List.take_of_length_le hlen

/-- Witness for C2: with discovery re-finding `"a"` and the checkpoint
containing `"a"`, the work list is exactly `["b"]`. -/
theorem work_list_spec_witness :
    "a" ∉ to_process ["a", "b", "a"] {"a"} ∧
    to_process ["a", "b", "a"] {"a"} = remaining_ids ["a", "b", "a"] {"a"} ∧
    (to_process ["a", "b", "a"] {"a"}).length ≤ LISTINGS_PER_RUN :=
  ⟨(work_list_spec ["a", "b", "a"] {"a"}).2.2.1 "a" (by decide),
    (work_list_spec ["a", "b", "a"] {"a"}).2.2.2 (by decide),
    (work_list_spec ["a", "b", "a"] {"a"}).1⟩

/-!
## The processed-ids store (`save_processed_id`, lines 139–142, and
`load_processed_ids`, lines 129–136)

The text file is modelled by its character contents.  `save_processed_id`
appends `f"{room_id}\n"`.  `load_processed_ids` reads the file line by
line, strips surrounding whitespace, drops blank lines and returns the set
of lines.  Iterating a Python file by lines and splitting the contents at
`'\n'` agree after stripping, since stripping removes the terminators and
the trailing empty piece is dropped as blank.
-/

/-- The whitespace characters removed by Python's `str.strip()` (ASCII
range; exotic Unicode whitespace is not modelled — identifiers are ASCII). -/
def pyWS (c : Char) : Bool :=
  c = ' ' || c = '\t' || c = '\n' || c = '\r' || c = '\x0b' || c = '\x0c'

/-- Python `line.strip()`. -/
def stripChars (s : List Char) : List Char :=
  ((s.dropWhile pyWS).reverse.dropWhile pyWS).reverse

/-- Split a file's contents at newline characters. -/
def splitNL : List Char → List (List Char)
  | [] => [[]]
  | c :: rest =>
    if c = '\n' then [] :: splitNL rest
    else
      match splitNL rest with
      | [] => [[c]]
      | l :: ls => (c :: l) :: ls

/-- `save_processed_id(room_id)`: append `f"{room_id}\n"` to the file. -/
def save_processed_id (file : List Char) (room_id : List Char) : List Char :=
  file ++ room_id ++ ['\n']

/-- `load_processed_ids()`: the set of stripped, non-blank lines of the
file (an absent file behaves as an empty one: empty set). -/
def load_processed_ids (file : List Char) : Finset (List Char) :=
  (((splitNL file).map stripChars).filter (fun l => l ≠ [])).toFinset

theorem splitNL_line (id rest : List Char) (h : '\n' ∉ id) :
    splitNL (id ++ '\n' :: rest) = id :: splitNL rest := by
  induction id with
  | nil => simp [splitNL]
  | cons c cs ih =>
    have hc : c ≠ '\n' := fun hcn => h (hcn ▸ List.mem_cons_self c cs)
    have hcs : '\n' ∉ cs := fun hm => h (List.mem_cons_of_mem c hm)
    simp only [List.cons_append, splitNL, if_neg hc, List.append_eq]
    rw [ih hcs]

theorem stripChars_no_ws (id : List Char) (h : ∀ c ∈ id, ¬ pyWS c) :
    stripChars id = id := by
  unfold stripChars
  have h1 : id.dropWhile pyWS = id := by
    cases id with
    | nil => rfl
    | cons c cs =>
      rw [List.dropWhile_cons_of_neg]
      simp [h c (List.mem_cons_self c cs)]
  rw [h1]
  have h2 : id.reverse.dropWhile pyWS = id.reverse := by
    cases hrev : id.reverse with
    | nil => rfl
    | cons c cs =>
      rw [List.dropWhile_cons_of_neg]
      have : c ∈ id := by
        rw [← List.mem_reverse, hrev]
        exact List.mem_cons_self c cs
      simp [h c this]
  rw [h2, List.reverse_reverse]

theorem foldl_save_append (ids : List (List Char)) :
    ∀ file, ids.foldl save_processed_id file =
      file ++ (ids.map (fun id => id ++ ['\n'])).flatten := by
  induction ids with
  | nil => intro file; simp
  | cons id rest ih =>
    intro file
    simp only [List.foldl_cons, List.map_cons, List.flatten_cons, ih, save_processed_id]
    simp [List.append_assoc]

theorem splitNL_encoded (ids : List (List Char)) (h : ∀ id ∈ ids, '\n' ∉ id) :
    splitNL ((ids.map (fun id => id ++ ['\n'])).flatten) = ids ++ [[]] := by
  induction ids with
  | nil => simp [splitNL]
  | cons id rest ih =>
    simp only [List.map_cons, List.flatten_cons, List.append_assoc, List.singleton_append]
    rw [splitNL_line id _ (h id (List.mem_cons_self id rest)),
      ih (fun i hi => h i (List.mem_cons_of_mem id hi))]
    simp

/-- C10: saving a sequence of non-empty, whitespace-free identifiers into
an (initially absent/empty) processed-ids store and loading it back yields
exactly the set of those identifiers; in particular every id marked by
`save_processed_id` is contained in the next `load_processed_ids` result. -/
theorem processed_ids_round_trip (ids : List (List Char))
    (h : ∀ id ∈ ids, id ≠ [] ∧ ∀ c ∈ id, ¬ pyWS c) :
    load_processed_ids (ids.foldl save_processed_id []) = ids.toFinset ∧
    ∀ id ∈ ids, id ∈ load_processed_ids (ids.foldl save_processed_id []) := by
  have hnl : ∀ id ∈ ids, '\n' ∉ id := by
    intro id hid hmem
    exact (h id hid).2 '\n' hmem (by simp [pyWS])
  have key : load_processed_ids (ids.foldl save_processed_id []) = ids.toFinset := by
    unfold load_processed_ids
    rw [foldl_save_append, List.nil_append, splitNL_encoded ids hnl]
    have hmap : (ids ++ [[]]).map stripChars = ids ++ [[]] := by
      rw [List.map_append]
      congr 1
      calc ids.map stripChars
          = ids.map (fun id => id) :=
            List.map_congr_left (fun id hid => stripChars_no_ws id (h id hid).2)
        _ = ids := by simp
    rw [hmap]
    have hfilter : (ids ++ [([] : List Char)]).filter (fun l => l ≠ []) = ids := by
      rw [List.filter_append]
      have h1 : ids.filter (fun l => l ≠ []) = ids :=
        List.filter_eq_self.mpr (fun id hid => by simpa using (h id hid).1)
      have h2 : ([([] : List Char)]).filter (fun l => l ≠ []) = [] := by rfl
      rw [h1, h2, List.append_nil]
    rw [hfilter]
  exact ⟨key, fun id hid => key ▸ List.mem_toFinset.mpr hid⟩

/-- Witness for C10: saving `"a1"` then `"b2"` and loading yields exactly
`{"a1", "b2"}` (as character lists), and each saved id is present. -/
theorem processed_ids_round_trip_witness :
    load_processed_ids ([['a', '1'], ['b', '2']].foldl save_processed_id []) =
      ([['a', '1'], ['b', '2']] : List (List Char)).toFinset ∧
    ['a', '1'] ∈ load_processed_ids ([['a', '1'], ['b', '2']].foldl save_processed_id []) :=
  ⟨(processed_ids_round_trip [['a', '1'], ['b', '2']] (by decide)).1,
    (processed_ids_round_trip [['a', '1'], ['b', '2']] (by decide)).2
      ['a', '1'] (by decide)⟩

/-!
## Discovery and deduplication (`collect_all_room_ids`, lines 179–224)

The per-zone search responses are modelled as given lists of raw hits (a
zone whose search failed after retries, or returned nothing, contributes
the empty list — in the source both cases `continue` without appending).
Identifier extraction follows lines 200–213: only dict hits are inspected;
`room_id`, then `id`, then `listing.id`, then `listing.room_id`, first
truthy value wins, converted with `str()`.  A hit whose `"listing"` key
holds a non-dict value makes `.get` raise `AttributeError`, which the
zone-level `except` catches: the rest of that zone's hits are dropped
(ids already appended are kept).  Finally `list(set(all_room_ids))`
deduplicates; its iteration order is unspecified in Python, so the model
uses `List.dedup` and only content is asserted.
-/

/-- `d.get(k, default)`: the stored value (even if falsy) or the default. -/
def vGetD (fs : List (String × Val)) (k : String) (dflt : Val) : Val :=
  match vGet fs k with
  | some v => v
  | none => dflt

/-- The `or`-chain of lines 204–210 extracting a room id from one raw hit;
`Except.error` models the `AttributeError` raised by `.get` on a non-dict
`"listing"` value. -/
def hitRoomId (result : Val) : Except Unit (Option Val) :=
  match result with
  | Val.dict fs =>
    let a := vGet fs "room_id"
    if pyTruthyO a then Except.ok a
    else
      let b := vGet fs "id"
      if pyTruthyO b then Except.ok b
      else
        match vGetD fs "listing" (Val.dict []) with
        | Val.dict lfs =>
          let c := vGet lfs "id"
          if pyTruthyO c then Except.ok c
          else Except.ok (vGet lfs "room_id")
        | _ => Except.error ()
  | _ => Except.ok none

/-- The ids appended while looping over one zone's search results
(lines 200–213); an extraction exception aborts the rest of the zone. -/
def zoneRoomIds : List Val → List String
  | [] => []
  | r :: rest =>
    match hitRoomId r with
    | Except.error _ => []
    | Except.ok none => zoneRoomIds rest
    | Except.ok (some v) => if pyTruthy v then pyStr v :: zoneRoomIds rest else zoneRoomIds rest

/-- `all_room_ids` after the zone loop: concatenation over all zones. -/
def all_room_ids_of (zoneResults : List (List Val)) : List String :=
  (zoneResults.map zoneRoomIds).flatten

/-- `collect_all_room_ids`: `unique_ids = list(set(all_room_ids))`. -/
def collect_all_room_ids (zoneResults : List (List Val)) : List String :=
  (all_room_ids_of zoneResults).dedup

/-- C5: the discovery set contains each extracted identifier exactly once —
it has no duplicates, its membership coincides with the raw (duplicated)
extraction list across all cells, and any identifier extracted from any
cell (in particular one extracted in two overlapping cells) occurs exactly
once. -/
theorem discovery_dedup_spec (zoneResults : List (List Val)) :
    (collect_all_room_ids zoneResults).Nodup ∧
    (∀ s, s ∈ collect_all_room_ids zoneResults ↔ s ∈ all_room_ids_of zoneResults) ∧
    (∀ s, s ∈ all_room_ids_of zoneResults → (collect_all_room_ids zoneResults).count s = 1) := by
  refine ⟨List.nodup_dedup _, fun s => List.mem_dedup, fun s hs => ?_⟩
  have hmem : s ∈ (all_room_ids_of zoneResults).dedup := List.mem_dedup.mpr hs
  have hle := (List.nodup_iff_count_le_one.mp (List.nodup_dedup (all_room_ids_of zoneResults))) s
  have hge := List.count_pos_iff.mpr hmem
  unfold collect_all_room_ids
  omega

/-- Witness for C5: the id `"X"` is extracted from hits in two different
zones (once via the `"id"` path, once via the `"room_id"` path) and
appears exactly once in the discovery set. -/
theorem discovery_dedup_spec_witness :
    "X" ∈ all_room_ids_of
        [[Val.dict [("id", Val.str "X")]],
         [Val.dict [("room_id", Val.str "X")], Val.dict [("id", Val.str "Y")]]] ∧
    (collect_all_room_ids
        [[Val.dict [("id", Val.str "X")]],
         [Val.dict [("room_id", Val.str "X")], Val.dict [("id", Val.str "Y")]]]).count "X" = 1 :=
  ⟨by decide,
    (discovery_dedup_spec
      [[Val.dict [("id", Val.str "X")]],
       [Val.dict [("room_id", Val.str "X")], Val.dict [("id", Val.str "Y")]]]).2.2
      "X" (by decide)⟩

/-!
## Listing extraction (`extract_listing_data`, lines 266–450)

`extract_listing_data(room_id, details, host_cache)` walks ordered lists of
field paths through the heterogeneous `details` payload, extracts a license
code from the description by regular expression, and enriches the host via
`get_host_details()` / `get_listings_from_user()` behind an in-run cache.
The two remote calls and `datetime.now().year` are supplied by an
`Oracles` record; the cache is threaded explicitly.
-/

/-- The path walk of lines 288–295 / 310–317 / 337–344: starting from
`details`, successively `.get` each key while the current value is a dict;
a missing key or non-dict intermediate value yields `None`. -/
def walkPath : Val → List String → Option Val
  | v, [] => some v
  | Val.dict fs, k :: rest =>
    match vGet fs k with
    | some v => walkPath v rest
    | none => none
  | _, _ :: _ => none

/-- First path whose value is truthy and a string (`if value and
isinstance(value, str)`), else `""` — used for title and description. -/
def firstStringPath (details : Val) : List (List String) → String
  | [] => ""
  | p :: ps =>
    match walkPath details p with
    | some (Val.str s) => if s ≠ "" then s else firstStringPath details ps
    | _ => firstStringPath details ps

/-- First path whose value is truthy (`if value:`), converted with
`str(value)`, else `""` — used for the host id. -/
def firstTruthyPath (details : Val) : List (List String) → String
  | [] => ""
  | p :: ps =>
    match walkPath details p with
    | some v => if pyTruthy v then pyStr v else firstTruthyPath details ps
    | none => firstTruthyPath details ps

/-- `title_paths` (lines 280–285). -/
def title_paths : List (List String) :=
  [["pdp_listing_detail", "name"], ["listing", "name"], ["name"], ["title"]]

/-- `desc_paths` (lines 303–307). -/
def desc_paths : List (List String) :=
  [["pdp_listing_detail", "description"], ["listing", "description"], ["description"]]

/-- `host_id_paths` (lines 327–334). -/
def host_id_paths : List (List String) :=
  [["pdp_listing_detail", "primary_host", "id"], ["primary_host", "id"],
   ["listing", "primary_host", "id"], ["listing", "user", "id"],
   ["user", "id"], ["host_id"]]

/-!
### The license-code regular expression (`extract_license_code`, lines 99–111)

Pattern `\b[A-Z]{3}-[A-Z]{3}-[A-Z0-9]{5,6}\b`, first match or `""`.  The
scanner below implements exactly this pattern: at each position with a
word boundary on the left it tries three uppercase letters, a dash, three
uppercase letters, a dash, then greedily six (else five) uppercase
alphanumerics followed by a word boundary.
-/

def isUpperL (c : Char) : Bool := 'A' ≤ c && c ≤ 'Z'
def isLowerL (c : Char) : Bool := 'a' ≤ c && c ≤ 'z'
def isDigitC (c : Char) : Bool := '0' ≤ c && c ≤ '9'
/-- Regex word characters (`\w`): letters, digits, underscore (ASCII). -/
def isWordC (c : Char) : Bool := isUpperL c || isLowerL c || isDigitC c || c = '_'
/-- The character class `[A-Z0-9]`. -/
def isUD (c : Char) : Bool := isUpperL c || isDigitC c

/-- `\b` to the right of a position: end of input or a non-word character. -/
def boundaryAfter : List Char → Bool
  | [] => true
  | c :: _ => !isWordC c

/-- Match `[A-Z]{3}-[A-Z]{3}-` at the head, returning matched characters
and remainder. -/
def matchLicHead : List Char → Option (List Char × List Char)
  | a :: b :: c :: '-' :: d :: e :: f :: '-' :: rest =>
    if isUpperL a && isUpperL b && isUpperL c && isUpperL d && isUpperL e && isUpperL f then
      some ([a, b, c, '-', d, e, f, '-'], rest)
    else none
  | _ => none

/-- Match `[A-Z0-9]{5,6}\b` at the head, greedily preferring six. -/
def matchLicTail (rest : List Char) : Option (List Char) :=
  match rest with
  | g1 :: g2 :: g3 :: g4 :: g5 :: rest5 =>
    if isUD g1 && isUD g2 && isUD g3 && isUD g4 && isUD g5 then
      match rest5 with
      | [] => some [g1, g2, g3, g4, g5]
      | g6 :: rest6 =>
        if isUD g6 then
          if boundaryAfter rest6 then some [g1, g2, g3, g4, g5, g6] else none
        else
          if !isWordC g6 then some [g1, g2, g3, g4, g5] else none
    else none
  | _ => none

/-- A full pattern match attempted at the current position. -/
def tryLicAt (s : List Char) : Option (List Char) :=
  match matchLicHead s with
  | some (pre, rest) =>
    match matchLicTail rest with
    | some tail => some (pre ++ tail)
    | none => none
  | none => none

/-- Leftmost-first scan: try the pattern at each position whose left
neighbour (`prev`) is a word boundary. -/
def scanLicense : Option Char → List Char → Option (List Char)
  | _, [] => none
  | prev, c :: cs =>
    match (if (match prev with | none => true | some p => !isWordC p) then
            tryLicAt (c :: cs) else none) with
    | some m => some m
    | none => scanLicense (some c) cs

/-- `extract_license_code(text)`: first regex match in the text, else `""`
(also `""` for falsy input, line 104–105). -/
def extract_license_code (text : String) : String :=
  if text = "" then ""
  else
    match scanLicense none text.data with
    | some cs => String.mk cs
    | none => ""

/-- A cached host entry: the dict stored in `host_cache` (lines 411–418),
or `{}` after an enrichment exception (line 425). -/
abbrev HostEntry : Type := List (String × Val)

/-- The in-run host cache (insertion-ordered dict keyed by host id). -/
abbrev HostCache : Type := List (String × HostEntry)

/-- Lookup in the host cache (`host_id not in host_cache` /
`host_cache[host_id]`, lines 363 and 428; dict keys are distinct). -/
def cacheFind : HostCache → String → Option HostEntry
  | [], _ => none
  | kv :: rest, host_id => if kv.1 = host_id then some kv.2 else cacheFind rest host_id

/-- `cached.get(key, default)` on a cache entry (lines 429–434). -/
def cacheGet (e : HostEntry) (k : String) (dflt : Val) : Val :=
  match vGet e k with
  | some v => v
  | none => dflt

/-- The external collaborators of the scraper and the clock.
`hostDetails h = none` models `get_host_details` raising after its retries
are exhausted; `hostListings` models `get_host_listings_count`, which
swallows all exceptions and returns an `int` (line 251–263); `details`
models `get_listing_details`; `writeOk k` tells whether the `k`-th
`write_csv` call of the run succeeds. -/
structure Oracles : Type where
  details : String → Option Val
  hostDetails : String → Option Val
  hostListings : String → ℕ
  currentYear : ℤ
  writeOk : ℕ → Bool

/-- First truthy value among dict keys, else `dflt` — the `or`-chains of
lines 370–397. -/
def firstTruthyKey (fs : List (String × Val)) (dflt : Val) : List String → Val
  | [] => dflt
  | k :: ks =>
    match vGet fs k with
    | some v => if pyTruthy v then v else firstTruthyKey fs dflt ks
    | none => firstTruthyKey fs dflt ks

/-- Lines 399–405: `int(member_since[:4])` guarded by `isinstance(…, str)
and len ≥ 4`; a `ValueError` is swallowed leaving both fields empty.  The
digits-only form of `int()` is modelled (signed/whitespace forms of
Python's `int()` never reach this code path for a year prefix and no
theorem depends on them). -/
def parseJoined (member_since : Val) (currentYear : ℤ) : Val × Val :=
  match member_since with
  | Val.str s =>
    if s.length ≥ 4 ∧ (s.data.take 4).all isDigitC then
      let j : ℤ := ((s.data.take 4).foldl (fun acc c => acc * 10 + (c.toNat - '0'.toNat)) 0 : ℕ)
      (Val.num j, Val.num (currentYear - j))
    else (Val.str "", Val.str "")
  | _ => (Val.str "", Val.str "")

/-- Result of the host-info block (lines 351–435): the six host fields,
the updated cache, and the host ids for which `get_host_details` was
invoked during this call. -/
structure HostBlockRes : Type where
  name : Val
  rating : Val
  reviews : Val
  joined : Val
  years : Val
  total : Val
  cache : HostCache
  calls : List String

/-- The host-info block of `extract_listing_data` (lines 351–435):
nothing happens for an empty host id; a cached host is read from the
cache; otherwise `get_host_details` is called — on exception the host is
cached as `{}`; on a truthy dict result the six fields are computed,
`get_listings_from_user` is consulted for the listing count and the host
is cached; a falsy or non-dict result leaves the fields empty and caches
nothing (so such a host would be re-fetched). -/
def hostBlock (host_id : String) (cache : HostCache) (O : Oracles) : HostBlockRes :=
  if host_id = "" then
    ⟨Val.str "", Val.str "", Val.str "", Val.str "", Val.str "", Val.num 0, cache, []⟩
  else
    match cacheFind cache host_id with
    | some e =>
      ⟨cacheGet e "name" (Val.str ""), cacheGet e "rating" (Val.str ""),
        cacheGet e "reviews_count" (Val.str ""), cacheGet e "joined_year" (Val.str ""),
        cacheGet e "years_active" (Val.str ""), cacheGet e "total_listings" (Val.num 0),
        cache, []⟩
    | none =>
      match O.hostDetails host_id with
      | none =>
        ⟨Val.str "", Val.str "", Val.str "", Val.str "", Val.str "", Val.num 0,
          cache ++ [(host_id, ([] : List (String × Val)))], [host_id]⟩
      | some hd =>
        match hd with
        | Val.dict fs =>
          if !fs.isEmpty then
            let host_name := firstTruthyKey fs (Val.str "") ["first_name", "name"]
            let host_rating := firstTruthyKey fs (Val.str "")
              ["overall_rating", "rating", "guest_rating"]
            let host_reviews := firstTruthyKey fs (Val.str "")
              ["review_count", "reviews_count", "number_of_reviews"]
            let member_since := firstTruthyKey fs (Val.str "") ["member_since", "created_at"]
            let jy := parseJoined member_since O.currentYear
            let total := O.hostListings host_id
            ⟨host_name, host_rating, host_reviews, jy.1, jy.2, Val.num total,
              cache ++ [(host_id,
                [("name", host_name), ("rating", host_rating),
                 ("reviews_count", host_reviews), ("joined_year", jy.1),
                 ("years_active", jy.2), ("total_listings", Val.num total)])],
              [host_id]⟩
          else
            ⟨Val.str "", Val.str "", Val.str "", Val.str "", Val.str "", Val.num 0,
              cache, [host_id]⟩
        | _ =>
          ⟨Val.str "", Val.str "", Val.str "", Val.str "", Val.str "", Val.num 0,
            cache, [host_id]⟩

/-- One produced record: an insertion-ordered dict, as returned at
lines 437–450. -/
abbrev ListingRecord : Type := List (String × Val)

/-- Result of `extract_listing_data`: the record plus the threaded cache
and the enrichment calls made. -/
structure ExtractRes : Type where
  record : ListingRecord
  cache : HostCache
  calls : List String

/-- `extract_listing_data(room_id, details, host_cache)` (lines 266–450). -/
def extract_listing_data (room_id : String) (details : Val) (host_cache : HostCache)
    (O : Oracles) : ExtractRes :=
  let listing_title := firstStringPath details title_paths
  let description := firstStringPath details desc_paths
  let license_code := extract_license_code description
  let host_id := firstTruthyPath details host_id_paths
  let hb := hostBlock host_id host_cache O
  { record :=
      [("room_id", Val.str room_id),
       ("listing_url", Val.str ("https://www.airbnb.com/rooms/" ++ room_id)),
       ("listing_title", Val.str listing_title),
       ("license_code", Val.str license_code),
       ("host_id", Val.str host_id),
       ("host_name", hb.name),
       ("host_profile_url",
         Val.str (if host_id ≠ "" then "https://www.airbnb.com/users/show/" ++ host_id else "")),
       ("host_rating", hb.rating),
       ("host_reviews_count", hb.reviews),
       ("host_joined_year", hb.joined),
       ("host_years_active", hb.years),
       ("host_total_listings_in_dubai", hb.total)],
    cache := hb.cache,
    calls := hb.calls }

/-- The fixed CSV column set of `write_csv` (lines 558–571). -/
def csv_fieldnames : List String :=
  ["room_id", "listing_url", "listing_title", "license_code", "host_id", "host_name",
   "host_profile_url", "host_rating", "host_reviews_count", "host_joined_year",
   "host_years_active", "host_total_listings_in_dubai"]

/-- `csv.DictWriter.writerows` raises `ValueError` on a record containing a
key outside `fieldnames` (its default `extrasaction='raise'`); missing keys
are filled with the rest-value and never raise. -/
def write_csv_raises (records : List ListingRecord) : Bool :=
  records.any (fun r => r.any (fun kv => !(csv_fieldnames.contains kv.1)))

/-- C9: for every details payload (of any shape) and every host-cache
state, `extract_listing_data` returns a record whose key list is exactly
the twelve CSV field names declared by `write_csv`, in order; hence
`csv.DictWriter` never raises on an unexpected field when writing any
produced record. -/
theorem record_keys_spec (room_id : String) (details : Val) (host_cache : HostCache)
    (O : Oracles) :
    (extract_listing_data room_id details host_cache O).record.map Prod.fst = csv_fieldnames ∧
    write_csv_raises [(extract_listing_data room_id details host_cache O).record] = false :=
  ⟨rfl, rfl⟩

/-!
## The main loop (`scrape_dubai_incremental`, lines 453–554)

State of the run while iterating over `to_process` (line 500).  The
checkpoint file (`processed_ids.txt`) is represented by the list of ids
this run has appended to it; the CSV file by the records it currently
holds durably; `new_records`, `commit_counter` and `host_cache` are the
loop's in-memory state.  `writes` counts `write_csv` invocations (to
index the `writeOk` oracle) and `enriched` accumulates the host ids for
which an owner-enrichment call (`get_host_details`) was made.  `crashed`
records that the final `write_csv` raised (uncaught, terminating the
run). -/
structure RunState : Type where
  processed : List String
  csv : List ListingRecord
  new_records : List ListingRecord
  commit_counter : ℕ
  host_cache : HostCache
  writes : ℕ
  enriched : List String
  crashed : Bool

/-- `COMMIT_EVERY = 50` (line 32). -/
def COMMIT_EVERY : ℕ := 50

/-- Initial state: nothing appended to the checkpoint yet, the CSV holding
the pre-existing records (`existing_records`), empty buffer and cache. -/
def initRunState (existing : List ListingRecord) : RunState :=
  ⟨[], existing, [], 0, [], 0, [], false⟩


/-- The body of one successful loop iteration (truthy details `d` for id
`rid`): extract, append the record to the in-memory `new_records`, append
the id to the checkpoint file (`save_processed_id`), bump the commit
counter, and at every `COMMIT_EVERY`-th success rewrite the CSV with
`existing + new_records` (a failing `write_csv` raises, is caught by the
loop's `except`, and leaves both the file and `commit_counter` unchanged;
the git publish step never raises, it catches its own errors). -/
def stepCore (O : Oracles) (existing : List ListingRecord) (s : RunState)
    (rid : String) (d : Val) : RunState :=
  let er := extract_listing_data rid d s.host_cache O
  let s1 : RunState :=
    { s with
      new_records := s.new_records ++ [er.record]
      host_cache := er.cache
      enriched := s.enriched ++ er.calls
      processed := s.processed ++ [rid]
      commit_counter := s.commit_counter + 1 }
  if s1.commit_counter ≥ COMMIT_EVERY then
    if O.writeOk s1.writes then
      { s1 with
        csv := existing ++ s1.new_records
        commit_counter := 0
        writes := s1.writes + 1 }
    else
      { s1 with writes := s1.writes + 1 }
  else s1

/-- One iteration of the loop of lines 500–527 for id `rid`:
`get_listing_details` under retry (`none` = final exception, caught by the
loop's `except`: skip, nothing recorded); falsy details (line 506): skip;
otherwise the successful-iteration body `stepCore`. -/
def stepListing (O : Oracles) (existing : List ListingRecord) (s : RunState)
    (rid : String) : RunState :=
  match O.details rid with
  | none => s
  | some d => if !pyTruthy d then s else stepCore O existing s rid d

/-- The final `write_csv(existing + new_records)` of line 531: when it
raises, the exception is uncaught and kills the run (`crashed`), leaving
the CSV file as it was. -/
def finalWrite (O : Oracles) (existing : List ListingRecord) (s : RunState) : RunState :=
  if O.writeOk s.writes then
    { s with csv := existing ++ s.new_records, writes := s.writes + 1 }
  else
    { s with writes := s.writes + 1, crashed := true }

/-- The whole processing phase of `scrape_dubai_incremental` after the
work list is fixed: the loop over `to_process` (lines 500–527), then the
final CSV write (line 531). -/
def runScrape (O : Oracles) (existing : List ListingRecord) (ids : List String) : RunState :=
  finalWrite O existing (ids.foldl (stepListing O existing) (initRunState existing))

theorem stepCore_processed (O : Oracles) (existing : List ListingRecord) (s : RunState)
    (rid : String) (d : Val) :
    (stepCore O existing s rid d).processed = s.processed ++ [rid] := by
  unfold stepCore
  dsimp only
  split
  · split <;> rfl
  · rfl

theorem stepCore_new_records (O : Oracles) (existing : List ListingRecord) (s : RunState)
    (rid : String) (d : Val) :
    (stepCore O existing s rid d).new_records =
      s.new_records ++ [(extract_listing_data rid d s.host_cache O).record] := by
  unfold stepCore
  dsimp only
  split
  · split <;> rfl
  · rfl

theorem stepCore_enriched (O : Oracles) (existing : List ListingRecord) (s : RunState)
    (rid : String) (d : Val) :
    (stepCore O existing s rid d).enriched =
      s.enriched ++ (extract_listing_data rid d s.host_cache O).calls := by
  unfold stepCore
  dsimp only
  split
  · split <;> rfl
  · rfl

theorem stepCore_host_cache (O : Oracles) (existing : List ListingRecord) (s : RunState)
    (rid : String) (d : Val) :
    (stepCore O existing s rid d).host_cache =
      (extract_listing_data rid d s.host_cache O).cache := by
  unfold stepCore
  dsimp only
  split
  · split <;> rfl
  · rfl

theorem stepCore_crashed (O : Oracles) (existing : List ListingRecord) (s : RunState)
    (rid : String) (d : Val) :
    (stepCore O existing s rid d).crashed = s.crashed := by
  unfold stepCore
  dsimp only
  split
  · split <;> rfl
  · rfl

/-- Case analysis for one loop iteration: either the iteration skips the
id entirely (fetch failure or falsy details) leaving the state unchanged,
or the details are truthy and the successful body runs. -/
theorem stepListing_cases (O : Oracles) (existing : List ListingRecord) (s : RunState)
    (rid : String) :
    (stepListing O existing s rid = s ∧
      (O.details rid = none ∨ ∃ d, O.details rid = some d ∧ pyTruthy d = false)) ∨
    (∃ d, O.details rid = some d ∧ pyTruthy d = true ∧
      stepListing O existing s rid = stepCore O existing s rid d) := by
  unfold stepListing
  cases hd : O.details rid with
  | none => exact Or.inl ⟨rfl, Or.inl rfl⟩
  | some d =>
    cases ht : pyTruthy d with
    | false => exact Or.inl ⟨by simp [ht], Or.inr ⟨d, rfl, ht⟩⟩
    | true => exact Or.inr ⟨d, rfl, ht, by simp [ht]⟩

theorem finalWrite_cases (O : Oracles) (existing : List ListingRecord) (s : RunState) :
    (O.writeOk s.writes = true ∧
      finalWrite O existing s =
        { s with csv := existing ++ s.new_records, writes := s.writes + 1 }) ∨
    (O.writeOk s.writes = false ∧
      finalWrite O existing s = { s with writes := s.writes + 1, crashed := true }) := by
  unfold finalWrite
  cases hw : O.writeOk s.writes with
  | false => exact Or.inr ⟨rfl, by simp⟩
  | true => exact Or.inl ⟨rfl, by simp⟩

/-- The record produced for `room_id` is keyed by that id. -/
theorem record_room_id (room_id : String) (details : Val) (cache : HostCache) (O : Oracles) :
    vGet (extract_listing_data room_id details cache O).record "room_id" =
      some (Val.str room_id) := rfl

/-- Oracle for the persist-then-mark counterexample: fetching details for
any id succeeds with a minimal truthy payload, `write_csv` always raises
(e.g. disk full), host enrichment is never reached. -/
def c1Oracle : Oracles :=
  ⟨fun _ => some (Val.dict [("name", Val.str "t")]), fun _ => none, fun _ => 0, 2026,
    fun _ => false⟩

/-- Counterexample to C1: processing the single id `"y1"` whose record
persistence (the final `write_csv`) fails leaves `"y1"` PRESENT in the
checkpoint store while the CSV holds no record at all — `save_processed_id`
runs immediately after the record is appended to the in-memory buffer,
before any durable write, so a later run will NOT reprocess `"y1"`. -/
theorem persist_then_mark_violated :
    (runScrape c1Oracle [] ["y1"]).processed = ["y1"] ∧
    (runScrape c1Oracle [] ["y1"]).csv = [] ∧
    (runScrape c1Oracle [] ["y1"]).crashed = true :=
  ⟨rfl, rfl, rfl⟩

theorem stepListing_mark_inv (O : Oracles) (existing : List ListingRecord)
    (s : RunState) (rid : String)
    (h : ∀ r ∈ s.processed, ∃ rec ∈ s.new_records, vGet rec "room_id" = some (Val.str r))
    (hc : s.crashed = false) :
    (∀ r ∈ (stepListing O existing s rid).processed,
      ∃ rec ∈ (stepListing O existing s rid).new_records,
        vGet rec "room_id" = some (Val.str r)) ∧
    (stepListing O existing s rid).crashed = false := by
  rcases stepListing_cases O existing s rid with ⟨heq, _⟩ | ⟨d, _, _, heq⟩
  · rw [heq]; exact ⟨h, hc⟩
  · rw [heq, stepCore_processed, stepCore_new_records, stepCore_crashed]
    refine ⟨fun r hr => ?_, hc⟩
    rcases List.mem_append.mp hr with hr | hr
    · obtain ⟨rec, hrec, hkey⟩ := h r hr
      exact ⟨rec, List.mem_append_left _ hrec, hkey⟩
    · rcases List.mem_singleton.mp hr with rfl
      exact ⟨(extract_listing_data r d s.host_cache O).record,
        List.mem_append_right _ (List.mem_singleton_self _),
        record_room_id r d s.host_cache O⟩

theorem runScrape_loop_mark_inv (O : Oracles) (existing : List ListingRecord) :
    ∀ (ids : List String) (s : RunState),
      (∀ r ∈ s.processed, ∃ rec ∈ s.new_records, vGet rec "room_id" = some (Val.str r)) →
      s.crashed = false →
      (∀ r ∈ (ids.foldl (stepListing O existing) s).processed,
        ∃ rec ∈ (ids.foldl (stepListing O existing) s).new_records,
          vGet rec "room_id" = some (Val.str r)) ∧
      (ids.foldl (stepListing O existing) s).crashed = false := by
  intro ids
  induction ids with
  | nil => intro s h hc; exact ⟨h, hc⟩
  | cons rid rest ih =>
    intro s h hc
    obtain ⟨h1, hc1⟩ := stepListing_mark_inv O existing s rid h hc
    exact ih (stepListing O existing s rid) h1 hc1

/-- C1 amended: an id is appended to the checkpoint store immediately
after its record is appended to the run's in-memory buffer (never
before), so every checkpointed id of the run has a record in the buffer;
but durable CSV persistence happens only at batch commits and at the
final `write_csv` — only when the final write succeeds does the durable
CSV contain all buffered records.  When that write fails (or the run dies
before it), checkpointed ids may lack durably persisted records and are
not reprocessed by later runs. -/
theorem persist_then_mark_amended (O : Oracles) (existing : List ListingRecord)
    (ids : List String) :
    (∀ r ∈ (runScrape O existing ids).processed,
      ∃ rec ∈ (runScrape O existing ids).new_records,
        vGet rec "room_id" = some (Val.str r)) ∧
    ((runScrape O existing ids).crashed = false →
      (runScrape O existing ids).csv = existing ++ (runScrape O existing ids).new_records) := by
  have hinit : ∀ r ∈ (initRunState existing).processed,
      ∃ rec ∈ (initRunState existing).new_records, vGet rec "room_id" = some (Val.str r) := by
    intro r hr
    simp [initRunState] at hr
  obtain ⟨hloop, hcl⟩ :=
    runScrape_loop_mark_inv O existing ids (initRunState existing) hinit rfl
  unfold runScrape
  rcases finalWrite_cases O existing (ids.foldl (stepListing O existing) (initRunState existing))
    with ⟨_, heq⟩ | ⟨_, heq⟩
  · rw [heq]
    exact ⟨hloop, fun _ => rfl⟩
  · rw [heq]
    exact ⟨hloop, fun hfalse => by simp at hfalse⟩

/-- Witness for C1 (amended): a run over one id with a succeeding final
write — the checkpointed id's record is in the buffer and the CSV equals
existing-plus-buffer. -/
theorem persist_then_mark_amended_witness :
    (∃ rec ∈ (runScrape ⟨fun _ => some (Val.dict [("name", Val.str "t")]), fun _ => none,
        fun _ => 0, 2026, fun _ => true⟩ [] ["w1"]).new_records,
      vGet rec "room_id" = some (Val.str "w1")) ∧
    (runScrape ⟨fun _ => some (Val.dict [("name", Val.str "t")]), fun _ => none,
        fun _ => 0, 2026, fun _ => true⟩ [] ["w1"]).csv =
      [] ++ (runScrape ⟨fun _ => some (Val.dict [("name", Val.str "t")]), fun _ => none,
        fun _ => 0, 2026, fun _ => true⟩ [] ["w1"]).new_records :=
  ⟨(persist_then_mark_amended ⟨fun _ => some (Val.dict [("name", Val.str "t")]), fun _ => none,
      fun _ => 0, 2026, fun _ => true⟩ [] ["w1"]).1 "w1" (by decide),
    (persist_then_mark_amended ⟨fun _ => some (Val.dict [("name", Val.str "t")]), fun _ => none,
      fun _ => 0, 2026, fun _ => true⟩ [] ["w1"]).2 rfl⟩


/-!
## Owner enrichment has no budget and no priority ranking (C6)

The only owner-enrichment mechanism in the source is the host-cache block
inside `extract_listing_data`: every distinct non-empty host id triggers a
`get_host_details` call the first time it is encountered, with no budget,
no multi-listing priority, no flagged-owner tier and no random sampling.
-/

/-- The host id contribution of one work-list id to the run: the host id
extracted from its details, when the fetch succeeds, the details are
truthy and the host id is non-empty. -/
def ridContrib (O : Oracles) (rid : String) : Option String :=
  match O.details rid with
  | none => none
  | some d =>
    if pyTruthy d then
      if firstTruthyPath d host_id_paths ≠ "" then some (firstTruthyPath d host_id_paths)
      else none
    else none

/-- All (duplicated, in encounter order) host ids of a run's work list. -/
def runHostIds (O : Oracles) (ids : List String) : List String :=
  ids.filterMap (ridContrib O)

theorem cacheFind_eq_none (cache : HostCache) (h : String) :
    cacheFind cache h = none ↔ h ∉ cache.map Prod.fst := by
  induction cache with
  | nil => simp [cacheFind]
  | cons kv rest ih =>
    by_cases hkv : kv.1 = h
    · simp [cacheFind, hkv]
    · simp only [cacheFind, if_neg hkv, List.map_cons, List.mem_cons, ih]
      constructor
      · rintro hno (rfl | hmem)
        · exact hkv rfl
        · exact hno hmem
      · intro hno hmem
        exact hno (Or.inr hmem)

theorem cacheFind_some_mem {cache : HostCache} {h : String} {e : HostEntry}
    (hfind : cacheFind cache h = some e) : h ∈ cache.map Prod.fst := by
  induction cache with
  | nil => simp [cacheFind] at hfind
  | cons kv rest ih =>
    by_cases hkv : kv.1 = h
    · simp [hkv]
    · rw [cacheFind, if_neg hkv] at hfind
      simp only [List.map_cons, List.mem_cons]
      exact Or.inr (ih hfind)

theorem hostBlock_skip_empty (cache : HostCache) (O : Oracles) :
    (hostBlock "" cache O).cache = cache ∧ (hostBlock "" cache O).calls = [] :=
  ⟨rfl, rfl⟩

theorem hostBlock_skip_cached (host_id : String) (cache : HostCache) (O : Oracles)
    (hne : host_id ≠ "") (e : HostEntry) (hfind : cacheFind cache host_id = some e) :
    (hostBlock host_id cache O).cache = cache ∧ (hostBlock host_id cache O).calls = [] := by
  unfold hostBlock
  rw [if_neg hne, hfind]
  exact ⟨rfl, rfl⟩

theorem hostBlock_fresh (host_id : String) (cache : HostCache) (O : Oracles)
    (hO : ∀ h v, O.hostDetails h = some v → ∃ fs, v = Val.dict fs ∧ fs ≠ [])
    (hne : host_id ≠ "") (hmiss : cacheFind cache host_id = none) :
    (hostBlock host_id cache O).cache.map Prod.fst = cache.map Prod.fst ++ [host_id] ∧
    (hostBlock host_id cache O).calls = [host_id] := by
  unfold hostBlock
  rw [if_neg hne, hmiss]
  cases hh : O.hostDetails host_id with
  | none => exact ⟨by simp, rfl⟩
  | some hd =>
    obtain ⟨fs, rfl, hfs⟩ := hO host_id hd hh
    have hempty : fs.isEmpty = false := by
      cases fs with
      | nil => exact absurd rfl hfs
      | cons a l => rfl
    simp only [hempty, Bool.not_false, if_true]
    exact ⟨by simp, by simp⟩

/-- The enrichment calls and cache of `extract_listing_data` are exactly
those of the host block at the extracted host id. -/
theorem extract_calls_cache (rid : String) (d : Val) (cache : HostCache) (O : Oracles) :
    (extract_listing_data rid d cache O).calls =
      (hostBlock (firstTruthyPath d host_id_paths) cache O).calls ∧
    (extract_listing_data rid d cache O).cache =
      (hostBlock (firstTruthyPath d host_id_paths) cache O).cache :=
  ⟨rfl, rfl⟩

theorem stepListing_enrich_inv (O : Oracles) (existing : List ListingRecord)
    (hO : ∀ h v, O.hostDetails h = some v → ∃ fs, v = Val.dict fs ∧ fs ≠ [])
    (s : RunState) (rid : String)
    (h1 : s.enriched.Nodup) (h2 : s.host_cache.map Prod.fst = s.enriched) :
    (stepListing O existing s rid).enriched.Nodup ∧
    (stepListing O existing s rid).host_cache.map Prod.fst =
      (stepListing O existing s rid).enriched ∧
    (∀ h, h ∈ (stepListing O existing s rid).enriched ↔
      (h ∈ s.enriched ∨ ridContrib O rid = some h)) := by
  rcases stepListing_cases O existing s rid with ⟨heq, hskip⟩ | ⟨d, hd, ht, heq⟩
  · have hcontrib : ridContrib O rid = none := by
      rcases hskip with hnone | ⟨d, hd, ht⟩
      · simp [ridContrib, hnone]
      · simp [ridContrib, hd, ht]
    rw [heq]
    exact ⟨h1, h2, fun h => by simp [hcontrib]⟩
  · have hcontrib : ridContrib O rid =
        (if firstTruthyPath d host_id_paths ≠ "" then some (firstTruthyPath d host_id_paths)
          else none) := by
      simp [ridContrib, hd, ht]
    rw [heq, stepCore_enriched, stepCore_host_cache,
      (extract_calls_cache rid d s.host_cache O).1, (extract_calls_cache rid d s.host_cache O).2]
    by_cases hh : firstTruthyPath d host_id_paths = ""
    · rw [hh]
      obtain ⟨hcache, hcalls⟩ := hostBlock_skip_empty s.host_cache O
      rw [hcache, hcalls, List.append_nil]
      refine ⟨h1, h2, fun h => ?_⟩
      rw [hcontrib, if_neg (by simp [hh])]
      simp
    · cases hfind : cacheFind s.host_cache (firstTruthyPath d host_id_paths) with
      | some e =>
        obtain ⟨hcache, hcalls⟩ :=
          hostBlock_skip_cached (firstTruthyPath d host_id_paths) s.host_cache O hh e hfind
        rw [hcache, hcalls, List.append_nil]
        refine ⟨h1, h2, fun h => ?_⟩
        rw [hcontrib, if_pos hh]
        constructor
        · exact fun hmem => Or.inl hmem
        · rintro (hmem | hsome)
          · exact hmem
          · obtain rfl : firstTruthyPath d host_id_paths = h := by injection hsome
            rw [← h2]
            exact cacheFind_some_mem hfind
      | none =>
        obtain ⟨hcache, hcalls⟩ :=
          hostBlock_fresh (firstTruthyPath d host_id_paths) s.host_cache O hO hh hfind
        have hnotmem : firstTruthyPath d host_id_paths ∉ s.enriched := by
          rw [← h2]
          exact (cacheFind_eq_none _ _).mp hfind
        rw [hcalls, hcache, h2]
        refine ⟨?_, rfl, fun h => ?_⟩
        · rw [List.nodup_append]
          refine ⟨h1, List.nodup_singleton _, ?_⟩
          intro a ha hb
          rcases List.mem_singleton.mp hb with rfl
          exact hnotmem ha
        · rw [hcontrib, if_pos hh]
          simp only [List.mem_append, List.mem_singleton]
          constructor
          · rintro (hmem | rfl)
            · exact Or.inl hmem
            · exact Or.inr rfl
          · rintro (hmem | hsome)
            · exact Or.inl hmem
            · injection hsome with hsome
              exact Or.inr hsome.symm

theorem runScrape_loop_enrich (O : Oracles) (existing : List ListingRecord)
    (hO : ∀ h v, O.hostDetails h = some v → ∃ fs, v = Val.dict fs ∧ fs ≠ []) :
    ∀ (ids : List String) (s : RunState),
      s.enriched.Nodup → s.host_cache.map Prod.fst = s.enriched →
      (ids.foldl (stepListing O existing) s).enriched.Nodup ∧
      (ids.foldl (stepListing O existing) s).host_cache.map Prod.fst =
        (ids.foldl (stepListing O existing) s).enriched ∧
      (∀ h, h ∈ (ids.foldl (stepListing O existing) s).enriched ↔
        (h ∈ s.enriched ∨ h ∈ runHostIds O ids)) := by
  intro ids
  induction ids with
  | nil =>
    intro s h1 h2
    exact ⟨h1, h2, fun h => by simp [runHostIds]⟩
  | cons rid rest ih =>
    intro s h1 h2
    obtain ⟨g1, g2, g3⟩ := stepListing_enrich_inv O existing hO s rid h1 h2
    obtain ⟨f1, f2, f3⟩ := ih (stepListing O existing s rid) g1 g2
    rw [List.foldl_cons]
    refine ⟨f1, f2, fun h => ?_⟩
    rw [f3 h, g3 h]
    show _ ↔ _ ∨ h ∈ List.filterMap (ridContrib O) (rid :: rest)
    rw [List.filterMap_cons]
    cases hcontrib : ridContrib O rid with
    | none => simp [runHostIds]
    | some hid =>
      simp only [runHostIds, List.mem_cons]
      constructor
      · rintro ((hmem | hsome) | hrest)
        · exact Or.inl hmem
        · exact Or.inr (Or.inl (by injection hsome with e; exact e.symm))
        · exact Or.inr (Or.inr hrest)
      · rintro (hmem | rfl | hrest)
        · exact Or.inl (Or.inl hmem)
        · exact Or.inl (Or.inr rfl)
        · exact Or.inr hrest

theorem finalWrite_enriched (O : Oracles) (existing : List ListingRecord) (s : RunState) :
    (finalWrite O existing s).enriched = s.enriched := by
  unfold finalWrite
  split <;> rfl

/-- C6 amended: the code has no enrichment budget, no priority ranking and
no random sampling — EVERY listing with a non-empty owner id triggers an
owner-enrichment call the first time that owner is encountered (in
encounter order), deduplicated only by the in-run host cache.  Under
well-formed host-details responses (every successful response a non-empty
dict, as `get_host_details` returns), the set of enriched owners is
exactly the set of owner ids appearing on the run's processed listings:
each enriched at most once, none skipped, however many exceed any intended
budget. -/
theorem enrichment_selection_spec (O : Oracles) (existing : List ListingRecord)
    (ids : List String)
    (hO : ∀ h v, O.hostDetails h = some v → ∃ fs, v = Val.dict fs ∧ fs ≠ []) :
    (runScrape O existing ids).enriched.Nodup ∧
    (∀ h, h ∈ (runScrape O existing ids).enriched ↔ h ∈ runHostIds O ids) := by
  obtain ⟨f1, _, f3⟩ :=
    runScrape_loop_enrich O existing hO ids (initRunState existing) List.nodup_nil rfl
  unfold runScrape
  rw [finalWrite_enriched]
  refine ⟨f1, fun h => ?_⟩
  rw [f3 h]
  simp [initRunState]

/-- Details of the C6 scenario's ten listings `r1…r10`: owners `A` and `B`
each own three listings (multi-listing owners), `C`, `D`, `E`, `F` one
each. -/
def c6Details (rid : String) : Option Val :=
  match [("r1", "A"), ("r2", "A"), ("r3", "A"), ("r4", "B"), ("r5", "B"), ("r6", "B"),
      ("r7", "C"), ("r8", "D"), ("r9", "E"), ("r10", "F")].find? (fun kv => kv.1 = rid) with
  | some kv => some (Val.dict [("name", Val.str "t"), ("host_id", Val.str kv.2)])
  | none => none

/-- The oracle of the C6 scenario: listing fetches per `c6Details`,
host-details calls succeed with a non-empty dict, writes succeed. -/
def c6Oracle : Oracles :=
  ⟨c6Details, fun _ => some (Val.dict [("first_name", Val.str "n")]), fun _ => 3, 2026,
    fun _ => true⟩

/-- Counterexample to C6: in the spec's own scenario (10 listings, owners
`A`,`B` with 3 listings each, budget 2) the code enriches ALL SIX distinct
owners in encounter order — not exactly the two multi-listing owners; the
four single-listing owners are enriched too and no budget truncation
occurs. -/
theorem enrichment_budget_violated :
    (runScrape c6Oracle []
        ["r1", "r2", "r3", "r4", "r5", "r6", "r7", "r8", "r9", "r10"]).enriched =
      ["A", "B", "C", "D", "E", "F"] ∧
    (runScrape c6Oracle []
        ["r1", "r2", "r3", "r4", "r5", "r6", "r7", "r8", "r9", "r10"]).enriched ≠
      ["A", "B"] ∧
    "C" ∈ (runScrape c6Oracle []
        ["r1", "r2", "r3", "r4", "r5", "r6", "r7", "r8", "r9", "r10"]).enriched := by
  refine ⟨by decide, by decide, by decide⟩

theorem c6Oracle_wellformed :
    ∀ h v, c6Oracle.hostDetails h = some v → ∃ fs, v = Val.dict fs ∧ fs ≠ [] := by
  intro h v hv
  have heq : some (Val.dict [("first_name", Val.str "n")]) = some v := hv
  exact ⟨[("first_name", Val.str "n")], (Option.some.inj heq).symm, List.cons_ne_nil _ _⟩

/-- Witness for C6 (amended): on the single listing `r7` (owner `C`) the
enriched-owner list is duplicate-free and contains exactly owner `C`. -/
theorem enrichment_selection_spec_witness :
    (runScrape c6Oracle [] ["r7"]).enriched.Nodup ∧
    "C" ∈ (runScrape c6Oracle [] ["r7"]).enriched :=
  ⟨(enrichment_selection_spec c6Oracle [] ["r7"] c6Oracle_wellformed).1,
    ((enrichment_selection_spec c6Oracle [] ["r7"] c6Oracle_wellformed).2 "C").mpr (by decide)⟩

/-!
## No geofencing in `extract_listing_data` (C7)

The function never reads any coordinate field of the details payload and
has no "out of scope" sentinel: it is total and returns a full listing
record for every payload, including payloads whose coordinates lie far
outside the hardcoded Dubai bounding box.
-/

/-- Whether a coordinate pair lies within the target area (the hardcoded
Dubai bounding box of `build_dubai_city_subzones`). -/
def inDubaiArea (lat lng : ℚ) : Prop :=
  dubai_south ≤ lat ∧ lat ≤ dubai_north ∧ dubai_west ≤ lng ∧ lng ≤ dubai_east

/-- A details payload exposing coordinates far outside Dubai (Paris). -/
def c7Payload : Val :=
  Val.dict [("name", Val.str "Paris flat"), ("lat", Val.num 48), ("lng", Val.num 2),
    ("host_id", Val.str "H")]

/-- Oracle for the geofencing counterexample. -/
def c7Oracle : Oracles :=
  ⟨fun _ => none, fun _ => some (Val.dict [("first_name", Val.str "Bob")]), fun _ => 1,
    2026, fun _ => true⟩

/-- Counterexample to C7: a fetched record exposing coordinates
`(48, 2)` — outside the target area by over 20 degrees, far beyond any
small margin — is NOT discarded: `extract_listing_data` returns a full
listing record for it (title and all twelve fields populated), not an
"out of scope" sentinel. -/
theorem geofencing_violated :
    vGet [("name", Val.str "Paris flat"), ("lat", Val.num 48), ("lng", Val.num 2),
        ("host_id", Val.str "H")] "lat" = some (Val.num 48) ∧
    vGet [("name", Val.str "Paris flat"), ("lat", Val.num 48), ("lng", Val.num 2),
        ("host_id", Val.str "H")] "lng" = some (Val.num 2) ∧
    ¬ inDubaiArea 48 2 ∧
    (extract_listing_data "p1" c7Payload [] c7Oracle).record.map Prod.fst = csv_fieldnames ∧
    vGet (extract_listing_data "p1" c7Payload [] c7Oracle).record "room_id" =
      some (Val.str "p1") ∧
    vGet (extract_listing_data "p1" c7Payload [] c7Oracle).record "listing_title" =
      some (Val.str "Paris flat") := by
  refine ⟨rfl, rfl, ?_, rfl, rfl, rfl⟩
  intro ⟨h1, h2, h3, h4⟩
  rw [dubai_north] at h2
  norm_num at h2

/-- C7 amended: `extract_listing_data` performs no geofencing at all — for
EVERY payload (with or without coordinates, inside or outside the area)
and every cache and oracle state, it returns an ordinary listing record
keyed by the requested id, never a sentinel; out-of-area records are kept,
not discarded. -/
theorem no_geofencing_spec (room_id : String) (details : Val) (cache : HostCache)
    (O : Oracles) :
    vGet (extract_listing_data room_id details cache O).record "room_id" =
      some (Val.str room_id) ∧
    vGet (extract_listing_data room_id details cache O).record "listing_url" =
      some (Val.str ("https://www.airbnb.com/rooms/" ++ room_id)) :=
  ⟨rfl, rfl⟩
